import Mathlib

/-!
Verification of the execution-tracing and interactive-stepping core of the
`leetcode-visualizer` repository (`src/visualizer/core.py`, `src/visualize.py`).

The Python code is shallowly embedded: each relevant method of
`Visualizer` becomes an executable Lean definition over explicit state.
Interpreter trace events (`sys.settrace`) are modelled as a list of events fed
to the trace callback; user keyboard input is modelled as a list of input
strings consumed by the prompt loop.
-/

namespace LCViz

/-- The event kinds `sys.settrace` delivers to a trace function.  The running
program never sets `f_trace_opcodes`, so `opcode` events are never delivered
and the four kinds below are exhaustive for this program. -/
inductive EKind where
  | call
  | line
  | ret
  | exc
deriving DecidableEq, Repr

/-- `event in {"call", "line", "return", "exception"}` from
`Visualizer._should_handle` (core.py line 127). -/
def knownKind : EKind → Bool
  | .call | .line | .ret | .exc => true

/-- The kind's Python string, as passed to the trace function. -/
def kindName : EKind → String
  | .call => "call"
  | .line => "line"
  | .ret => "return"
  | .exc => "exception"

/-- Python `event.upper()` for the ASCII event names. -/
def pyToUpper (s : String) : String := ⟨s.toList.map Char.toUpper⟩

/-- One interpreter event as seen by `Visualizer._trace`: the originating
frame's `f_code.co_filename`, the frame's identity (`is` comparison), and
the event kind. -/
structure Ev where
  filename : String
  frame : Nat
  kind : EKind
deriving DecidableEq, Repr

/-- The mutable fields of `Visualizer` that the trace/controller logic reads
and writes (core.py lines 49-51). -/
structure TraceState where
  targetFilename : Option String
  rootFrame : Option Nat
  continueUntilReturn : Bool
deriving DecidableEq, Repr

/-- `Visualizer._should_handle` (core.py lines 120-127). -/
def shouldHandle (s : TraceState) (frame : Nat) (kind : EKind) : Bool :=
  match s.rootFrame with
  | none => kind == .call
  | some r =>
    if s.continueUntilReturn && !(frame == r) then false
    else knownKind kind

/-- The pause condition of `Visualizer._trace` (core.py line 115):
`not self._continue_until_return or frame is self._root_frame and event == "return"`
(Python parses this as `(not ff) or (is-root and is-return)`). -/
def pauseCond (s : TraceState) (frame : Nat) (kind : EKind) : Bool :=
  !s.continueUntilReturn || ((s.rootFrame == some frame) && kind == .ret)

/-- Outcome of feeding one event to `Visualizer._trace` (core.py lines
100-118): the updated state, whether the event was accepted (rendered), and
whether `_prompt` was invoked for it. -/
structure StepResult where
  state : TraceState
  accepted : Bool
  paused : Bool
deriving DecidableEq, Repr

/-- Root-frame capture in `Visualizer._trace` (core.py lines 107-108):
`if self._root_frame is None and event == "call": self._root_frame = frame`. -/
def rootCapture (s : TraceState) (e : Ev) : TraceState :=
  if s.rootFrame = none ∧ e.kind = .call then { s with rootFrame := some e.frame }
  else s

/-- `Visualizer._trace` (core.py lines 100-118) minus the rendering and the
prompt themselves: the filename filter, root-frame capture, `_should_handle`
filter and the pause condition. -/
def traceStep (s : TraceState) (e : Ev) : StepResult :=
  match s.targetFilename with
  | none => ⟨s, false, false⟩
  | some t =>
    if e.filename ≠ t then ⟨s, false, false⟩
    else
      let s₁ := rootCapture s e
      if shouldHandle s₁ e.frame e.kind then
        ⟨s₁, true, pauseCond s₁ e.frame e.kind⟩
      else ⟨s₁, false, false⟩

/-- Classification of one line of user input by `Visualizer._prompt`
(core.py lines 392-399): `.strip().lower()` then membership in the
recognized command sets. -/
inductive PromptAction where
  | stepA
  | contA
  | quitA
  | unrecognized
deriving DecidableEq, Repr

/-- Python `raw.strip().lower()`: drop leading and trailing whitespace, then
lowercase each character (the commands involved are ASCII, where Python's
`str.lower` and `Char.toLower` agree). -/
def pyStripLower (raw : String) : String :=
  ⟨(((raw.toList.dropWhile Char.isWhitespace).reverse.dropWhile
      Char.isWhitespace).reverse).map Char.toLower⟩

/-- One iteration of the `while True` loop in `Visualizer._prompt`. -/
def classifyCmd (raw : String) : PromptAction :=
  let u := pyStripLower raw
  if u == "" || u == "s" || u == "n" then .stepA
  else if u == "c" then .contA
  else if u == "q" then .quitA
  else .unrecognized

/-- How a whole `_prompt` call ends: a recognized command, or the input
script ran out (the real prompt would block forever on `input`). -/
inductive PromptOutcome where
  | setStep
  | setCont
  | quit
  | blocked
deriving DecidableEq, Repr

/-- `Visualizer._prompt` (core.py lines 379-403) run against a script of
input lines: loops past unrecognized input, returns on step/continue (setting
`_continue_until_return`), raises `KeyboardInterrupt` on `q`. -/
def runPrompt : List String → PromptOutcome × List String
  | [] => (.blocked, [])
  | raw :: rest =>
    match classifyCmd raw with
    | .stepA => (.setStep, rest)
    | .contA => (.setCont, rest)
    | .quitA => (.quit, rest)
    | .unrecognized => runPrompt rest

/-- How a traced session ends: all events processed, or cut short by the
cancellation `KeyboardInterrupt` from `quit`, or stuck awaiting input. -/
inductive Outcome where
  | finished
  | cancelled
  | blocked
deriving DecidableEq, Repr

/-- `_prompt`'s effect on the visualizer state: either the new state (with
`_continue_until_return` set per the command) or an early session end. -/
def promptTransition (st : TraceState) (sc : List String) :
    Except Outcome TraceState × List String :=
  match runPrompt sc with
  | (.setStep, sc') => (.ok { st with continueUntilReturn := false }, sc')
  | (.setCont, sc') => (.ok { st with continueUntilReturn := true }, sc')
  | (.quit, sc') => (.error .cancelled, sc')
  | (.blocked, sc') => (.error .blocked, sc')

/-- The observable log of one traced session: the events accepted (rendered)
in order, the events at which the user was prompted, the final visualizer
state, the unconsumed input script, and how the session ended. -/
structure SessionLog where
  accepted : List Ev
  paused : List Ev
  final : TraceState
  script : List String
  outcome : Outcome
deriving DecidableEq, Repr

/-- A whole session: the interpreter delivers the events in order to
`Visualizer._trace`; each pause consumes input via `_prompt`.  A
`KeyboardInterrupt` raised by `quit` disables tracing (CPython removes the
trace function when it raises), so no later event is processed. -/
def runSession (s : TraceState) (sc : List String) : List Ev → SessionLog
  | [] => ⟨[], [], s, sc, .finished⟩
  | e :: rest =>
    let r := traceStep s e
    if r.paused then
      match promptTransition r.state sc with
      | (.ok st', sc') =>
        let L := runSession st' sc' rest
        ⟨e :: L.accepted, e :: L.paused, L.final, L.script, L.outcome⟩
      | (.error o, sc') => ⟨[e], [e], r.state, sc', o⟩
    else if r.accepted then
      let L := runSession r.state sc rest
      ⟨e :: L.accepted, L.paused, L.final, L.script, L.outcome⟩
    else
      let L := runSession r.state sc rest
      ⟨L.accepted, L.paused, L.final, L.script, L.outcome⟩

/-- The state `Visualizer.run` starts a session in: target filename recorded
by `_prepare`, no root frame, stepping mode. -/
def initState (t : String) : TraceState := ⟨some t, none, false⟩

/-! ## Value formatting (`Visualizer._safe_repr`, core.py lines 366-374) -/

/-- An arbitrary Python runtime value as the formatter sees it: what
`pprint.pformat(value, width=80, compact=True)` produces (`none` when it
raises) and what `repr(value)` produces (`none` when `__repr__` raises). -/
structure PyValue where
  pformatResult : Option String
  reprResult : Option String
deriving DecidableEq, Repr

/-- Python slicing `s[:n]` for an `Int` bound: a negative bound counts from
the end of the string. -/
def pySlice (s : String) (n : Int) : String :=
  if 0 ≤ n then s.take n.toNat
  else s.take (max 0 ((s.length : Int) + n)).toNat

/-- The truncation tail of `_safe_repr` (core.py lines 372-374):
`formatted[: self.settings.max_value_repr - 3] + "..."` when over the cap. -/
def truncateRepr (cap : Int) (formatted : String) : String :=
  if (formatted.length : Int) > cap then pySlice formatted (cap - 3) ++ "..."
  else formatted

/-- `Visualizer._safe_repr` (core.py lines 366-374).  `pformat` is guarded by
`except Exception`, but the fallback `repr(value)` is not guarded: if it also
raises, the exception propagates out of `_safe_repr` (`.error ()`). -/
def safeRepr (cap : Int) (v : PyValue) : Except Unit String :=
  let fm := match v.pformatResult with
    | some s => some s
    | none => v.reprResult
  match fm with
  | some formatted => .ok (truncateRepr cap formatted)
  | none => .error ()

/-! ## Snapshot builder (`_build_event_payload`, `_format_call_details`,
`_gather_locals`) -/

/-- The attributes of a call frame that the snapshot builder reads. -/
structure Frame where
  funcName : String
  lineno : Int
  firstlineno : Int
  fLocals : List (String × PyValue)
  argNames : List String
  varargs : Option String
  kwargs : Option String
deriving Repr

/-- `Visualizer._format_call_details` (core.py lines 350-364): one
`name=value` pair per positional parameter bound in `f_locals`, then the
`*varargs` and `**kwargs` groups when bound, joined with ", " in
parentheses.  Propagates a `_safe_repr` failure. -/
def formatCallDetails (cap : Int) (fr : Frame) : Except Unit String := do
  let pairs₀ ← fr.argNames.foldlM (fun (acc : List String) name =>
    match fr.fLocals.lookup name with
    | some v => do
      let s ← safeRepr cap v
      pure (acc ++ [name ++ "=" ++ s])
    | none => pure acc) []
  let pairs₁ ← (match fr.varargs with
    | some va =>
      match fr.fLocals.lookup va with
      | some v => do
        let s ← safeRepr cap v
        pure (pairs₀ ++ ["*" ++ va ++ "=" ++ s])
      | none => pure pairs₀
    | none => pure pairs₀)
  let pairs₂ ← (match fr.kwargs with
    | some kw =>
      match fr.fLocals.lookup kw with
      | some v => do
        let s ← safeRepr cap v
        pure (pairs₁ ++ ["**" ++ kw ++ "=" ++ s])
      | none => pure pairs₁
    | none => pure pairs₁)
  pure ("(" ++ String.intercalate ", " pairs₂ ++ ")")

/-- The kind-specific third argument of the trace function: `None` for
call/line, the return value for return, the `(exc_type, exc_value, tb)`
triple for exception (the type is kept as its `__name__`). -/
inductive EvArg where
  | noArg
  | retVal (v : PyValue)
  | excInfo (tyName : String) (v : PyValue)
deriving Repr

/-- The payload dict built by `Visualizer._build_event_payload`
(core.py lines 163-186). -/
structure Payload where
  funcName : String
  lineno : Int
  label : String
  details : String
  lineDisplay : Int
deriving DecidableEq, Repr

/-- `Visualizer._build_event_payload` (core.py lines 163-186).  A
`_safe_repr` failure propagates (`.error ()`).  The final catch-all matches
Python's `else` branch (`line` events). -/
def buildEventPayload (cap : Int) (fr : Frame) (kind : EKind) (arg : EvArg) :
    Except Unit Payload := do
  let label := pyToUpper (kindName kind)
  match kind, arg with
  | .call, _ => do
    let details ← formatCallDetails cap fr
    pure ⟨fr.funcName, fr.lineno, label, details, fr.firstlineno⟩
  | .ret, .retVal v => do
    let s ← safeRepr cap v
    pure ⟨fr.funcName, fr.lineno, label, "return value = " ++ s, fr.lineno⟩
  | .exc, .excInfo ty v => do
    let s ← safeRepr cap v
    pure ⟨fr.funcName, fr.lineno, label, "exception " ++ ty ++ ": " ++ s, fr.lineno⟩
  | _, _ =>
    pure ⟨fr.funcName, fr.lineno, label, "", fr.lineno⟩

/-- Python `k.startswith("__")`. -/
def startsWithDunder (s : String) : Bool :=
  match s.toList with
  | '_' :: '_' :: _ => true
  | _ => false

/-- Code-point comparison of character lists, as Python's `<=` orders the
variable names that `sorted` compares. -/
def charListLe : List Char → List Char → Bool
  | [], _ => true
  | _ :: _, [] => false
  | a :: as, b :: bs =>
    if a.toNat < b.toNat then true
    else if b.toNat < a.toNat then false
    else charListLe as bs

/-- Python string `<=` (lexicographic by code point). -/
def pyStrLe (a b : String) : Bool := charListLe a.toList b.toList

/-- `Visualizer._gather_locals` (core.py lines 332-348): drop
leading-double-underscore names from `f_locals`, collect watch-list names
bound in that filtered view in watch-list order, then the remaining filtered
view sorted alphabetically (Python `sorted` on the name/value pairs; the
names are dict keys, hence distinct, so the sort compares names) with
watch-list names excluded. -/
def gatherLocals (watch : List String) (fLocals : List (String × PyValue)) :
    List (String × PyValue) × List (String × PyValue) :=
  let localsView := fLocals.filter (fun kv => !startsWithDunder kv.1)
  let watchItems := watch.filterMap
    (fun name => (localsView.lookup name).map (fun v => (name, v)))
  let localsItems :=
    (localsView.insertionSort (fun a b => pyStrLe a.1 b.1 = true)).filter
      (fun kv => !watch.contains kv.1)
  (watchItems, localsItems)

/-! ## Session setup and teardown (`Visualizer.run`, `Visualizer._prepare`,
`main` of src/visualize.py) -/

/-- The exception classes the visualizer and its CLI deal in, kept as
distinct constructors so a caller's `except` clauses are modelled by
matching on them. -/
inductive PyErr where
  | keyboardInterrupt (msg : String)
  | valueError (msg : String)
  | runtimeError (msg : String)
  | targetError (name : String)
deriving DecidableEq, Repr

/-- Python `str.splitlines()` length for newline-separated text (the only
separator that occurs in the repository's source files): one line per `'\n'`,
plus one for a nonempty final segment after the last `'\n'`. -/
def pyLineCount (txt : String) : Nat :=
  txt.toList.count '\n' +
    (match txt.toList.getLast? with
     | some c => if c = '\n' then 0 else 1
     | none => 0)

/-- What `_prepare` records on success. -/
structure PrepareResult where
  targetFilename : String
  sourceTotalLines : Nat
deriving DecidableEq, Repr

/-- `Visualizer._prepare` (core.py lines 85-98): `inspect.getsourcefile`
returning `None` raises `ValueError`; an `OSError` from
`Path.read_text` (modelled as `.error ()`) is swallowed and the recorded
line count is 0. -/
def prepareModel (sourcefile : Option String) (readText : Except Unit String) :
    Except PyErr PrepareResult :=
  match sourcefile with
  | none => .error (.valueError "Cannot locate source for callable")
  | some fn =>
    let total := match readText with
      | .ok txt => pyLineCount txt
      | .error () => 0
    .ok ⟨fn, total⟩

instance {ε α : Type} [DecidableEq ε] [DecidableEq α] :
    DecidableEq (Except ε α) := fun a b =>
  match a, b with
  | .ok x, .ok y => decidable_of_iff (x = y) (by simp)
  | .error x, .error y => decidable_of_iff (x = y) (by simp)
  | .ok _, .error _ => .isFalse (by simp)
  | .error _, .ok _ => .isFalse (by simp)

/-- What `Visualizer.run` leaves behind, beyond its return value or raised
exception: whether `sys.settrace(self._trace)` is still installed when `run`
returns or propagates, whether it was ever installed during the call, and the
instance fields the outer `finally` (core.py lines 74-80) resets. -/
structure RunOutput where
  result : Except PyErr Nat
  sinkAtEnd : Bool
  sinkEver : Bool
  activeAtEnd : Bool
  rootAtEnd : Option Nat
  ffAtEnd : Bool
deriving DecidableEq, Repr

/-- `Visualizer.run` (core.py lines 59-80).  `activeBefore`, `rootBefore`,
`ffBefore` are the instance fields on entry; `body` is the outcome of
`func(*args, **kwargs)` under tracing — a normal value, the callable's own
exception, or the `KeyboardInterrupt` that a `quit` in `_prompt` lets
propagate through the callable's unwinding stack.  The reentrancy check
fires before any state change; `_prepare` failure fires before
`sys.settrace`; the inner `finally` always uninstalls the sink; the outer
`finally` always resets the instance fields. -/
def runModel (activeBefore : Bool) (rootBefore : Option Nat) (ffBefore : Bool)
    (sourcefile : Option String) (readText : Except Unit String)
    (body : Except PyErr Nat) : RunOutput :=
  if activeBefore then
    { result := .error (.runtimeError "Visualizer is already running"),
      sinkAtEnd := false, sinkEver := false,
      activeAtEnd := true, rootAtEnd := rootBefore, ffAtEnd := ffBefore }
  else
    match prepareModel sourcefile readText with
    | .error e =>
      { result := .error e, sinkAtEnd := false, sinkEver := false,
        activeAtEnd := false, rootAtEnd := none, ffAtEnd := false }
    | .ok _prep =>
      { result := body, sinkAtEnd := false, sinkEver := true,
        activeAtEnd := false, rootAtEnd := none, ffAtEnd := false }

/-- The `try/except KeyboardInterrupt` around `visualizer.run` in `main`
(src/visualize.py lines 67-72): cancellation becomes exit status 1, a normal
return becomes exit status 0, any other exception keeps propagating. -/
def mainHandle (r : Except PyErr Nat) : Except PyErr Nat :=
  match r with
  | .ok _ => .ok 0
  | .error (.keyboardInterrupt _) => .ok 1
  | .error e => .error e

/-! ## Rich code panel (`Visualizer._rich_code_panel`, core.py lines
236-262) -/

/-- `[a, a+1, ..., b]` over `Int`. -/
def intRange (a b : Int) : List Int :=
  (List.range (b + 1 - a).toNat).map (fun i => a + i)

/-- Python `raw_line.rstrip("\n")`. -/
def rstripNewline (s : String) : String :=
  ⟨(s.toList.reverse.dropWhile (fun c => c == '\n')).reverse⟩

/-- The data `_rich_code_panel` computes before handing off to Rich. -/
structure CodePanel where
  sourceLines : List String
  lineRange : Int × Int
  highlighted : Bool
deriving DecidableEq, Repr

/-- `Visualizer._rich_code_panel` (core.py lines 236-262).  `getline` is
`linecache.getline` for the target file (`""` when the line is
unavailable, which Python's `if not raw_line: continue` skips).  With a
source line count of 0, `self._source_total_lines or lineno + context` falls
back to the computed `lineno + context` bound; when no line is retrievable
the panel degrades to the `"<source unavailable>"` placeholder with the
highlight suppressed. -/
def richCodePanel (contextLines : Int) (sourceTotalLines : Nat) (lineno : Int)
    (getline : Int → String) : CodePanel :=
  let start := max 1 (lineno - contextLines)
  let maxLine : Int :=
    if sourceTotalLines = 0 then lineno + contextLines
    else (sourceTotalLines : Int)
  let endL := min maxLine (lineno + contextLines)
  let gathered := (intRange start endL).filterMap
    (fun i => if getline i = "" then none else some (rstripNewline (getline i)))
  let sourceLines := if gathered.isEmpty then ["<source unavailable>"] else gathered
  { sourceLines := sourceLines,
    lineRange := (start, start + sourceLines.length - 1),
    highlighted := !sourceLines.isEmpty && !sourceLines.contains "<source unavailable>" }

/-! ## Step-level lemmas about the trace callback -/

lemma rootCapture_targetFilename (s : TraceState) (e : Ev) :
    (rootCapture s e).targetFilename = s.targetFilename := by
  unfold rootCapture
  split <;> rfl

lemma rootCapture_ff (s : TraceState) (e : Ev) :
    (rootCapture s e).continueUntilReturn = s.continueUntilReturn := by
  unfold rootCapture
  split <;> rfl

lemma rootCapture_of_root (s : TraceState) (e : Ev) (r : Nat)
    (h : s.rootFrame = some r) : rootCapture s e = s := by
  unfold rootCapture
  rw [if_neg]
  rintro ⟨h1, -⟩
  rw [h] at h1
  exact Option.noConfusion h1

lemma traceStep_targetFilename (s : TraceState) (e : Ev) :
    (traceStep s e).state.targetFilename = s.targetFilename := by
  unfold traceStep
  split
  · rfl
  · split
    · rfl
    · dsimp only
      split <;> exact rootCapture_targetFilename s e

lemma traceStep_ff (s : TraceState) (e : Ev) :
    (traceStep s e).state.continueUntilReturn = s.continueUntilReturn := by
  unfold traceStep
  split
  · rfl
  · split
    · rfl
    · dsimp only
      split <;> exact rootCapture_ff s e

lemma traceStep_root_stable (s : TraceState) (e : Ev) (r : Nat)
    (h : s.rootFrame = some r) : (traceStep s e).state.rootFrame = some r := by
  unfold traceStep
  split
  · exact h
  · split
    · exact h
    · dsimp only
      rw [rootCapture_of_root s e r h]
      split <;> exact h

lemma traceStep_paused_accepted (s : TraceState) (e : Ev) :
    (traceStep s e).paused = true → (traceStep s e).accepted = true := by
  unfold traceStep
  split
  · simp
  · split
    · simp
    · dsimp only
      split <;> simp

lemma knownKind_true (k : EKind) : knownKind k = true := by cases k <;> rfl

lemma traceStep_accepted_filename (s : TraceState) (e : Ev) (t : String)
    (hT : s.targetFilename = some t) (h : (traceStep s e).accepted = true) :
    e.filename = t := by
  by_cases hf : e.filename = t
  · exact hf
  · simp only [traceStep, hT] at h
    rw [if_pos hf] at h
    simp at h

lemma promptTransition_ok (st : TraceState) (sc : List String) (st' : TraceState)
    (sc' : List String) (h : promptTransition st sc = (.ok st', sc')) :
    st'.targetFilename = st.targetFilename ∧ st'.rootFrame = st.rootFrame := by
  unfold promptTransition at h
  rcases hrp : runPrompt sc with ⟨o, sc''⟩
  rw [hrp] at h
  cases o <;> simp at h <;> rw [← h.1] <;> exact ⟨rfl, rfl⟩

/-! ## Session-level lemmas -/

/-- Every event a session renders or pauses on comes from the target's
source file. -/
lemma session_surfaced_filename (t : String) :
    ∀ (es : List Ev) (s : TraceState) (sc : List String), s.targetFilename = some t →
      ∀ e : Ev, (e ∈ (runSession s sc es).accepted ∨ e ∈ (runSession s sc es).paused) →
        e.filename = t := by
  intro es
  induction es with
  | nil =>
    intro s sc hT e he
    simp [runSession] at he
  | cons a rest ih =>
    intro s sc hT e he
    have hstT : (traceStep s a).state.targetFilename = some t := by
      rw [traceStep_targetFilename]; exact hT
    simp only [runSession] at he
    by_cases hp : (traceStep s a).paused = true
    · rw [if_pos hp] at he
      have haf : a.filename = t :=
        traceStep_accepted_filename s a t hT (traceStep_paused_accepted s a hp)
      rcases hpt : promptTransition (traceStep s a).state sc with ⟨o, sc'⟩
      rw [hpt] at he
      cases o with
      | ok st' =>
        simp only [List.mem_cons] at he
        rcases he with (rfl | he) | (rfl | he)
        · exact haf
        · exact ih st' sc' (by rw [(promptTransition_ok _ _ _ _ hpt).1, hstT]) e (Or.inl he)
        · exact haf
        · exact ih st' sc' (by rw [(promptTransition_ok _ _ _ _ hpt).1, hstT]) e (Or.inr he)
      | error o' =>
        simp only [List.mem_singleton] at he
        rcases he with rfl | rfl <;> exact haf
    · rw [if_neg hp] at he
      by_cases ha : (traceStep s a).accepted = true
      · rw [if_pos ha] at he
        simp only [List.mem_cons] at he
        rcases he with (rfl | he) | he
        · exact traceStep_accepted_filename s _ t hT ha
        · exact ih _ sc hstT e (Or.inl he)
        · exact ih _ sc hstT e (Or.inr he)
      · rw [if_neg ha] at he
        rcases he with he | he
        · exact ih _ sc hstT e (Or.inl he)
        · exact ih _ sc hstT e (Or.inr he)

/-! ## Claim C7 -/

/-- **C7** (confirmed).  For every session and every event whose originating
source file differs from the target callable's, the event is never surfaced:
it appears neither among the rendered events nor among the pause points,
however deeply nested the foreign call is — `_trace` discards any event whose
`f_code.co_filename` differs from the target's before rendering. -/
theorem foreign_events_never_surfaced (t : String) (s : TraceState)
    (sc : List String) (es : List Ev) (e : Ev)
    (hT : s.targetFilename = some t) (hne : e.filename ≠ t) :
    e ∉ (runSession s sc es).accepted ∧ e ∉ (runSession s sc es).paused :=
  ⟨fun h => hne (session_surfaced_filename t es s sc hT e (Or.inl h)),
   fun h => hne (session_surfaced_filename t es s sc hT e (Or.inr h))⟩

theorem foreign_events_never_surfaced_witness :
    (⟨"os.py", 3, EKind.line⟩ : Ev) ∉
      (runSession (initState "t.py") [""]
        [⟨"t.py", 0, .call⟩, ⟨"os.py", 3, .line⟩]).accepted :=
  (foreign_events_never_surfaced "t.py" (initState "t.py") [""]
    [⟨"t.py", 0, .call⟩, ⟨"os.py", 3, .line⟩] ⟨"os.py", 3, .line⟩ rfl
    (by decide)).1

/-! ## Claim C1 -/

/-- **C1** (corrected).  The claim says `continue` suppresses pauses until
the *currently-open call* (the most deeply nested frame at the moment of the
command) returns.  In the code, fast-forward is relative to the *root* frame
instead: while `_continue_until_return` is set and a root frame exists, an
event pauses the session iff it is the root frame's `return` event. -/
theorem continue_pauses_only_at_root_return (s : TraceState) (e : Ev)
    (t : String) (r : Nat) (hT : s.targetFilename = some t)
    (hF : e.filename = t) (hff : s.continueUntilReturn = true)
    (hr : s.rootFrame = some r) :
    (traceStep s e).paused = true ↔ (e.frame = r ∧ e.kind = .ret) := by
  have hrc := rootCapture_of_root s e r hr
  by_cases hfr : e.frame = r
  · simp [traceStep, hT, hF, hrc, shouldHandle, pauseCond, hr, hff, hfr, knownKind_true]
  · simp [traceStep, hT, hF, hrc, shouldHandle, pauseCond, hr, hff, hfr]

theorem continue_pauses_only_at_root_return_witness :
    (traceStep ⟨some "t.py", some 0, true⟩ ⟨"t.py", 0, .ret⟩).paused = true :=
  (continue_pauses_only_at_root_return ⟨some "t.py", some 0, true⟩
    ⟨"t.py", 0, .ret⟩ "t.py" 0 rfl rfl rfl rfl).mpr ⟨rfl, rfl⟩

/-- **C1** counterexample.  A session over target file `t.py`: the root call
(frame 0) pauses, a line pauses, a nested same-file call (frame 1) pauses and
the user enters `c` there.  The currently-open call at that moment is frame
1, so the claim requires the next pause at frame 1's return; instead frame
1's return is not even rendered, and the next (and final) pause is the root
frame's return. -/
theorem continue_in_nested_call_cex :
    (runSession (initState "t.py") ["", "", "c", ""]
        [⟨"t.py", 0, .call⟩, ⟨"t.py", 0, .line⟩, ⟨"t.py", 1, .call⟩,
         ⟨"t.py", 1, .ret⟩, ⟨"t.py", 0, .line⟩, ⟨"t.py", 0, .ret⟩]).paused
      = [⟨"t.py", 0, .call⟩, ⟨"t.py", 0, .line⟩, ⟨"t.py", 1, .call⟩,
         ⟨"t.py", 0, .ret⟩]
    ∧ (⟨"t.py", 1, .ret⟩ : Ev) ∉
      (runSession (initState "t.py") ["", "", "c", ""]
        [⟨"t.py", 0, .call⟩, ⟨"t.py", 0, .line⟩, ⟨"t.py", 1, .call⟩,
         ⟨"t.py", 1, .ret⟩, ⟨"t.py", 0, .line⟩, ⟨"t.py", 0, .ret⟩]).accepted := by
  decide

/-! ## Claim C6 -/

/-- **C6** (corrected).  The claim says that in fast-forward no event is
surfaced except the root frame's terminal `return`.  In the code, *all* root
frame events remain surfaced (rendered) during fast-forward; only the pauses
are restricted to the root frame's return.  The run teardown then leaves the
controller in step mode. -/
theorem fastForward_surfaces_only_root_frame (s : TraceState) (e : Ev)
    (t : String) (r : Nat) (hT : s.targetFilename = some t)
    (hF : e.filename = t) (hff : s.continueUntilReturn = true)
    (hr : s.rootFrame = some r) :
    ((traceStep s e).accepted = true ↔ e.frame = r)
    ∧ ((traceStep s e).paused = true ↔ (e.frame = r ∧ e.kind = .ret))
    ∧ (∀ (root' : Option Nat) (sf : Option String) (rd : Except Unit String)
        (b : Except PyErr Nat), (runModel false root' true sf rd b).ffAtEnd = false) := by
  refine ⟨?_, ?_, ?_⟩
  · have hrc := rootCapture_of_root s e r hr
    by_cases hfr : e.frame = r
    · simp [traceStep, hT, hF, hrc, shouldHandle, hr, hff, hfr, knownKind_true]
    · simp [traceStep, hT, hF, hrc, shouldHandle, hr, hff, hfr]
  · exact continue_pauses_only_at_root_return s e t r hT hF hff hr
  · intro root' sf rd b
    cases hp : prepareModel sf rd <;> simp [runModel, hp]

theorem fastForward_surfaces_only_root_frame_witness :
    (traceStep ⟨some "t.py", some 5, true⟩ ⟨"t.py", 5, .line⟩).accepted = true :=
  ((fastForward_surfaces_only_root_frame ⟨some "t.py", some 5, true⟩
    ⟨"t.py", 5, .line⟩ "t.py" 5 rfl rfl rfl rfl).1).mpr rfl

/-- **C6** counterexample.  `c` is entered at the second pause; the third
event — a `line` event of the root frame, not its terminal return — is still
accepted (rendered, i.e. surfaced) while fast-forward is active (the final
state shows `continueUntilReturn` still true), refuting "no event is surfaced
except the Root Frame's own terminal event". -/
theorem fastForward_renders_root_line_cex :
    (runSession (initState "solution.py") ["", "c"]
        [⟨"solution.py", 7, .call⟩, ⟨"solution.py", 7, .line⟩,
         ⟨"solution.py", 7, .line⟩])
    = ⟨[⟨"solution.py", 7, .call⟩, ⟨"solution.py", 7, .line⟩,
        ⟨"solution.py", 7, .line⟩],
       [⟨"solution.py", 7, .call⟩, ⟨"solution.py", 7, .line⟩],
       ⟨some "solution.py", some 7, true⟩, [], .finished⟩ := by
  decide

/-! ## Claim C2 -/

/-- **C2** (confirmed).  On every exit path of `run` — normal return of the
target, exception, cancellation — the process-wide trace sink is uninstalled
before `run` returns or propagates (`sinkAtEnd = false` over all inputs),
and if `run` fails during setup (reentrancy or unlocatable source) the sink
was never installed at all. -/
theorem run_sink_always_released (a : Bool) (root' : Option Nat) (ff : Bool)
    (sf : Option String) (rd : Except Unit String) (b : Except PyErr Nat) :
    (runModel a root' ff sf rd b).sinkAtEnd = false
    ∧ ((a = true ∨ sf = none) → (runModel a root' ff sf rd b).sinkEver = false) := by
  constructor
  · cases a
    · cases hp : prepareModel sf rd <;> simp [runModel, hp]
    · simp [runModel]
  · rintro (rfl | rfl)
    · simp [runModel]
    · cases a <;> simp [runModel, prepareModel]

/-! ## Claim C4 -/

/-- **C4** (code bug).  `_safe_repr` guards `pprint.pformat` with
`except Exception`, but the fallback `repr(value)` is unguarded: for a value
whose `__repr__` raises (so both formatting attempts fail), `_safe_repr`
propagates the exception instead of returning a fixed placeholder — the spec
requires "the Formatter must still return *some* fixed placeholder rather
than propagate an error". -/
theorem safe_repr_propagates_repr_failure :
    safeRepr 120 ⟨none, none⟩ = .error () := rfl

/-! ## Claim C8 -/

/-- **C8** (confirmed).  The `quit` command — exactly the inputs whose
stripped, lowercased form is `"q"` — raises `KeyboardInterrupt`; `run` lets
it unwind the target's stack and propagates it unchanged; and the caller in
`visualize.py` distinguishes it from setup errors (`ValueError`,
`RuntimeError`) and target-callable errors, mapping cancellation to exit
status 1 while every other exception keeps propagating. -/
theorem quit_cancellation_distinct (raw : String) (m s : String) (n : Nat)
    (root' : Option Nat) (ff : Bool) (fn : String) (rd : Except Unit String) :
    (classifyCmd raw = .quitA ↔ pyStripLower raw = "q")
    ∧ (runModel false root' ff (some fn) rd (.error (.keyboardInterrupt m))).result
        = .error (.keyboardInterrupt m)
    ∧ mainHandle (.error (.keyboardInterrupt m)) = .ok 1
    ∧ mainHandle (.error (.valueError s)) = .error (.valueError s)
    ∧ mainHandle (.error (.runtimeError s)) = .error (.runtimeError s)
    ∧ mainHandle (.error (.targetError s)) = .error (.targetError s)
    ∧ mainHandle (.ok n) = .ok 0 := by
  refine ⟨?_, by simp [runModel, prepareModel], rfl, rfl, rfl, rfl, rfl⟩
  by_cases hq : pyStripLower raw = "q"
  · simp [classifyCmd, hq]
  · simp only [hq, iff_false]
    simp only [classifyCmd]
    split
    · simp
    · split
      · simp
      · split
        · rename_i h3
          exact absurd (by simpa using h3) hq
        · simp

/-! ## Claim C9 -/

/-- **C9** (confirmed).  If the target callable raises, `run` re-raises the
exact original exception to its caller, unwrapped, with the sink already
detached; the `exception` payload shows the original type name and the
formatted value; and an exception event on the root frame is always
accepted (surfaced) by the trace filter. -/
theorem target_exception_shown_and_reraised (root' : Option Nat) (ff : Bool)
    (fn : String) (rd : Except Unit String) (ename : String) (cap : Int)
    (fr : Frame) (ty : String) (v : PyValue) (str : String) (t : String)
    (k : Nat) (b : Bool) (hs : safeRepr cap v = .ok str) :
    (runModel false root' ff (some fn) rd (.error (.targetError ename))).result
        = .error (.targetError ename)
    ∧ (runModel false root' ff (some fn) rd
        (.error (.targetError ename))).sinkAtEnd = false
    ∧ buildEventPayload cap fr .exc (.excInfo ty v)
        = .ok ⟨fr.funcName, fr.lineno, "EXCEPTION",
            "exception " ++ ty ++ ": " ++ str, fr.lineno⟩
    ∧ (traceStep ⟨some t, some k, b⟩ ⟨t, k, .exc⟩).accepted = true := by
  refine ⟨?_, ?_, ?_, ?_⟩
  · simp [runModel, prepareModel]
  · simp [runModel, prepareModel]
  · simp [buildEventPayload, hs]
    decide
  · have hrc : rootCapture ⟨some t, some k, b⟩ ⟨t, k, .exc⟩ = ⟨some t, some k, b⟩ :=
      rootCapture_of_root _ _ k rfl
    simp [traceStep, hrc, shouldHandle, knownKind_true]

theorem target_exception_shown_and_reraised_witness :
    buildEventPayload 120 ⟨"f", 9, 5, [], [], none, none⟩ .exc
        (.excInfo "ValueError" ⟨some "x", some "x"⟩)
      = .ok ⟨"f", 9, "EXCEPTION", "exception ValueError: x", 9⟩ :=
  (target_exception_shown_and_reraised none false "t.py" (.error ()) "E" 120
    ⟨"f", 9, 5, [], [], none, none⟩ "ValueError" ⟨some "x", some "x"⟩ "x"
    "t.py" 0 false (by decide)).2.2.1

/-! ## Claim C10 -/

/-- **C10** (confirmed).  When the callable's source file is located but its
text cannot be read (`OSError` in `_prepare`), the session proceeds: the
recorded source line count is 0, `run` still returns the target's value, and
the rich code panel degrades to the computed `lineno ± context` range and the
`"<source unavailable>"` placeholder when no line is retrievable. -/
theorem unreadable_source_session_proceeds (fn : String) (v : Nat)
    (root' : Option Nat) (ff : Bool) (c ln : Int) (g : Int → String)
    (hg : ∀ i, g i = "") :
    prepareModel (some fn) (.error ()) = .ok ⟨fn, 0⟩
    ∧ (runModel false root' ff (some fn) (.error ()) (.ok v)).result = .ok v
    ∧ richCodePanel c 0 ln g
        = ⟨["<source unavailable>"], (max 1 (ln - c), max 1 (ln - c)), false⟩ := by
  refine ⟨rfl, by simp [runModel, prepareModel], ?_⟩
  have hf : ∀ (l : List Int), l.filterMap
      (fun i => if g i = "" then none else some (rstripNewline (g i))) = [] := by
    intro l
    apply List.filterMap_eq_nil_iff.mpr
    intro a _
    simp [hg]
  simp only [richCodePanel, if_pos rfl, min_self, hf]
  simp

theorem unreadable_source_session_proceeds_witness :
    richCodePanel 3 0 5 (fun _ => "")
      = ⟨["<source unavailable>"], (max 1 (5 - 3), max 1 (5 - 3)), false⟩ :=
  (unreadable_source_session_proceeds "t.py" 0 none false 3 5 (fun _ => "")
    (fun _ => rfl)).2.2

/-! ## Claim C3: root-frame lifecycle lemmas -/

lemma rootCapture_root_none_call (s : TraceState) (a : Ev)
    (hroot : s.rootFrame = none) (hk : a.kind = .call) :
    rootCapture s a = { s with rootFrame := some a.frame } := by
  unfold rootCapture
  rw [if_pos ⟨hroot, hk⟩]

lemma rootCapture_notcall (s : TraceState) (a : Ev) (hk : a.kind ≠ .call) :
    rootCapture s a = s := by
  unfold rootCapture
  rw [if_neg]
  rintro ⟨-, h⟩
  exact hk h

/-- Before a root frame exists, only a `call` event is accepted, and the one
that is accepted installs its frame as the root. -/
lemma traceStep_of_root_none (s : TraceState) (a : Ev)
    (hroot : s.rootFrame = none) :
    ((traceStep s a).accepted = true →
      a.kind = .call ∧ (traceStep s a).state.rootFrame = some a.frame)
    ∧ ((traceStep s a).accepted = false →
      (traceStep s a).state.rootFrame = none) := by
  unfold traceStep
  cases hT : s.targetFilename with
  | none => simp [hroot]
  | some t =>
    by_cases hf : a.filename = t
    · by_cases hk : a.kind = .call
      · rw [rootCapture_root_none_call s a hroot hk]
        simp [hf, shouldHandle, knownKind_true, hk]
      · rw [rootCapture_notcall s a hk]
        simp [hf, shouldHandle, hroot, hk]
    · simp [hf, hroot]

lemma promptTransition_error (st : TraceState) (sc : List String) (o : Outcome)
    (sc' : List String) (h : promptTransition st sc = (.error o, sc')) :
    o = .cancelled ∨ o = .blocked := by
  unfold promptTransition at h
  rcases hrp : runPrompt sc with ⟨po, sc''⟩
  rw [hrp] at h
  cases po <;> simp at h
  · exact Or.inl h.1.symm
  · exact Or.inr h.1.symm

/-- The root frame, once set, stays set for the rest of the session. -/
lemma session_root_stable (r : Nat) :
    ∀ (es : List Ev) (s : TraceState) (sc : List String), s.rootFrame = some r →
      (runSession s sc es).final.rootFrame = some r := by
  intro es
  induction es with
  | nil => intro s sc h; simpa [runSession] using h
  | cons a rest ih =>
    intro s sc h
    have hstep := traceStep_root_stable s a r h
    simp only [runSession]
    by_cases hp : (traceStep s a).paused = true
    · rw [if_pos hp]
      rcases hpt : promptTransition (traceStep s a).state sc with ⟨o, sc'⟩
      cases o with
      | ok st' =>
        exact ih st' sc' (by rw [(promptTransition_ok _ _ _ _ hpt).2]; exact hstep)
      | error o' => exact hstep
    · rw [if_neg hp]
      by_cases ha : (traceStep s a).accepted = true
      · rw [if_pos ha]
        exact ih _ sc hstep
      · rw [if_neg ha]
        exact ih _ sc hstep

/-- The first accepted event of a session started without a root frame is a
`call` event, and its frame is the session's final root frame. -/
lemma session_first_accepted :
    ∀ (es : List Ev) (s : TraceState) (sc : List String), s.rootFrame = none →
      ∀ (e : Ev) (rest' : List Ev), (runSession s sc es).accepted = e :: rest' →
        e.kind = .call ∧ (runSession s sc es).final.rootFrame = some e.frame := by
  intro es
  induction es with
  | nil =>
    intro s sc hroot e rest' hacc
    simp [runSession] at hacc
  | cons a rest ih =>
    intro s sc hroot e rest' hacc
    simp only [runSession] at hacc ⊢
    by_cases hp : (traceStep s a).paused = true
    · rw [if_pos hp] at hacc ⊢
      have hstep := (traceStep_of_root_none s a hroot).1 (traceStep_paused_accepted s a hp)
      rcases hpt : promptTransition (traceStep s a).state sc with ⟨o, sc'⟩
      rw [hpt] at hacc
      cases o with
      | ok st' =>
        have he : a = e := by simpa using congrArg List.head? hacc
        subst he
        refine ⟨hstep.1, ?_⟩
        exact session_root_stable a.frame rest st' sc'
          (by rw [(promptTransition_ok _ _ _ _ hpt).2]; exact hstep.2)
      | error o' =>
        have he : a = e := by simpa using congrArg List.head? hacc
        subst he
        exact ⟨hstep.1, hstep.2⟩
    · rw [if_neg hp] at hacc ⊢
      by_cases ha : (traceStep s a).accepted = true
      · rw [if_pos ha] at hacc ⊢
        have hstep := (traceStep_of_root_none s a hroot).1 ha
        have he : a = e := by simpa using congrArg List.head? hacc
        subst he
        refine ⟨hstep.1, ?_⟩
        exact session_root_stable a.frame rest _ sc hstep.2
      · rw [if_neg ha] at hacc ⊢
        have hroot' := (traceStep_of_root_none s a hroot).2 (by simpa using ha)
        exact ih _ sc hroot' e rest' hacc

lemma traceStep_state_root_notcall (s : TraceState) (a : Ev)
    (hk : a.kind ≠ .call) : (traceStep s a).state.rootFrame = s.rootFrame := by
  unfold traceStep
  cases hT : s.targetFilename with
  | none => rfl
  | some t =>
    by_cases hf : a.filename = t
    · rw [rootCapture_notcall s a hk]
      dsimp only
      rw [if_neg (show ¬ (a.filename ≠ t) by simp [hf])]
      split <;> rfl
    · simp [hf]

/-- A root-frame `return` event forming a one-event session is accepted in
every controller state. -/
lemma singleton_session_root_ret (s : TraceState) (sc : List String) (e : Ev)
    (t : String) (hT : s.targetFilename = some t) (hf : e.filename = t)
    (hr : s.rootFrame = some e.frame) :
    (runSession s sc [e]).accepted = [e] := by
  have hrc : rootCapture s e = s := rootCapture_of_root s e e.frame hr
  have hacc : (traceStep s e).accepted = true := by
    simp [traceStep, hT, hf, hrc, shouldHandle, hr, knownKind_true]
  simp only [runSession]
  by_cases hp : (traceStep s e).paused = true
  · rw [if_pos hp]
    rcases hpt : promptTransition (traceStep s e).state sc with ⟨o, sc'⟩
    cases o <;> rfl
  · rw [if_neg hp, if_pos hacc]

lemma singleton_final_root (s : TraceState) (sc : List String) (e : Ev) :
    (runSession s sc [e]).final.rootFrame = (traceStep s e).state.rootFrame := by
  simp only [runSession]
  by_cases hp : (traceStep s e).paused = true
  · rw [if_pos hp]
    rcases hpt : promptTransition (traceStep s e).state sc with ⟨o, sc'⟩
    cases o with
    | ok st' =>
      dsimp only
      exact (promptTransition_ok _ _ _ _ hpt).2
    | error o' => rfl
  · rw [if_neg hp]
    by_cases ha : (traceStep s e).accepted = true
    · rw [if_pos ha]
    · rw [if_neg ha]

/-- In a session that runs to completion and whose last interpreter event is
the root frame's `return`, that event is the last accepted event. -/
lemma session_last_root_return (e : Ev) (he : e.kind = .ret) :
    ∀ (es₁ : List Ev) (s : TraceState) (sc : List String) (t : String),
      s.targetFilename = some t → e.filename = t →
      (runSession s sc (es₁ ++ [e])).outcome = .finished →
      (runSession s sc (es₁ ++ [e])).final.rootFrame = some e.frame →
      (runSession s sc (es₁ ++ [e])).accepted.getLast? = some e := by
  intro es₁
  induction es₁ with
  | nil =>
    intro s sc t hT hf _hfin hroot
    have hkne : e.kind ≠ .call := by rw [he]; intro hcontra; cases hcontra
    rw [List.nil_append] at hroot ⊢
    have hsr : s.rootFrame = some e.frame := by
      rw [← traceStep_state_root_notcall s e hkne, ← singleton_final_root s sc e]
      exact hroot
    rw [singleton_session_root_ret s sc e t hT hf hsr]
    rfl
  | cons a es₁' ih =>
    intro s sc t hT hf hfin hroot
    have hstT : (traceStep s a).state.targetFilename = some t := by
      rw [traceStep_targetFilename]; exact hT
    rw [List.cons_append] at hfin hroot ⊢
    simp only [runSession] at hfin hroot ⊢
    by_cases hp : (traceStep s a).paused = true
    · rw [if_pos hp] at hfin hroot ⊢
      rcases hpt : promptTransition (traceStep s a).state sc with ⟨o, sc'⟩
      rw [hpt] at hfin hroot
      cases o with
      | ok st' =>
        dsimp only at hfin hroot ⊢
        have hL := ih st' sc' t (by rw [(promptTransition_ok _ _ _ _ hpt).1]; exact hstT)
          hf hfin hroot
        rcases hacc : (runSession st' sc' (es₁' ++ [e])).accepted with _ | ⟨b, l⟩
        · rw [hacc] at hL; simp at hL
        · rw [hacc] at hL
          rw [List.getLast?_cons_cons]
          exact hL
      | error o' =>
        dsimp only at hfin
        rcases promptTransition_error _ _ _ _ hpt with h | h <;> rw [h] at hfin <;>
          exact absurd hfin (by simp)
    · rw [if_neg hp] at hfin hroot ⊢
      by_cases ha : (traceStep s a).accepted = true
      · rw [if_pos ha] at hfin hroot ⊢
        dsimp only at hfin hroot ⊢
        have hL := ih _ sc t hstT hf hfin hroot
        rcases hacc : (runSession (traceStep s a).state sc (es₁' ++ [e])).accepted
            with _ | ⟨b, l⟩
        · rw [hacc] at hL; simp at hL
        · rw [hacc] at hL
          rw [List.getLast?_cons_cons]
          exact hL
      · rw [if_neg ha] at hfin hroot ⊢
        exact ih _ sc t hstT hf hfin hroot

/-- **C3** (confirmed).  For every session started by `run`: the first
accepted (surfaced) event is a `call` event and its frame becomes (and
remains) the Root Frame; while the Root Frame is unset every non-`call`
event is discarded; and when the session runs to completion (no cancellation
or blocking) with the interpreter's last delivered event being the Root
Frame's `return`, that return is the last accepted event. -/
theorem session_first_call_last_root_return (t : String) (sc : List String)
    (es : List Ev) (e₀ : Ev) (rest : List Ev) (es₁ : List Ev) (elast : Ev) :
    ((runSession (initState t) sc es).accepted = e₀ :: rest →
      e₀.kind = .call
      ∧ (runSession (initState t) sc es).final.rootFrame = some e₀.frame)
    ∧ (∀ (s : TraceState) (ev : Ev), s.rootFrame = none → ev.kind ≠ .call →
        (traceStep s ev).accepted = false)
    ∧ (es = es₁ ++ [elast] → elast.filename = t → elast.kind = .ret →
      (runSession (initState t) sc es).outcome = .finished →
      (runSession (initState t) sc es).final.rootFrame = some elast.frame →
      (runSession (initState t) sc es).accepted.getLast? = some elast) := by
  refine ⟨?_, ?_, ?_⟩
  · intro hacc
    exact session_first_accepted es (initState t) sc rfl e₀ rest hacc
  · intro s ev hroot hk
    cases hb : (traceStep s ev).accepted with
    | false => rfl
    | true => exact absurd ((traceStep_of_root_none s ev hroot).1 hb).1 hk
  · rintro rfl hf hk hfin hroot
    exact session_last_root_return elast hk es₁ (initState t) sc t rfl hf hfin hroot

theorem session_first_call_last_root_return_witness :
    (runSession (initState "t.py") ["", "", ""]
      [⟨"t.py", 0, .call⟩, ⟨"t.py", 0, .line⟩, ⟨"t.py", 0, .ret⟩]).accepted.getLast?
      = some ⟨"t.py", 0, .ret⟩ :=
  (session_first_call_last_root_return "t.py" ["", "", ""]
    [⟨"t.py", 0, .call⟩, ⟨"t.py", 0, .line⟩, ⟨"t.py", 0, .ret⟩]
    ⟨"t.py", 0, .call⟩ [] [⟨"t.py", 0, .call⟩, ⟨"t.py", 0, .line⟩]
    ⟨"t.py", 0, .ret⟩).2.2 rfl rfl rfl (by decide) (by decide)

/-! ## Claim C5: the locals partition -/

lemma charListLe_total : ∀ as bs : List Char,
    charListLe as bs = true ∨ charListLe bs as = true := by
  intro as
  induction as with
  | nil => intro bs; exact Or.inl rfl
  | cons a as' ih =>
    intro bs
    cases bs with
    | nil => exact Or.inr rfl
    | cons b bs' =>
      unfold charListLe
      by_cases h1 : a.toNat < b.toNat
      · left; rw [if_pos h1]
      · by_cases h2 : b.toNat < a.toNat
        · right; rw [if_pos h2]
        · rcases ih bs' with h | h
          · left; rw [if_neg h1, if_neg h2]; exact h
          · right; rw [if_neg h2, if_neg h1]; exact h

lemma charListLe_trans : ∀ as bs cs : List Char,
    charListLe as bs = true → charListLe bs cs = true →
    charListLe as cs = true := by
  intro as
  induction as with
  | nil => intro bs cs _ _; rfl
  | cons a as' ih =>
    intro bs cs h1 h2
    cases bs with
    | nil => exact absurd h1 (by simp [charListLe])
    | cons b bs' =>
      cases cs with
      | nil => exact absurd h2 (by simp [charListLe])
      | cons c cs' =>
        unfold charListLe at h1 h2 ⊢
        by_cases hab : a.toNat < b.toNat
        · by_cases hbc : b.toNat < c.toNat
          · rw [if_pos (show a.toNat < c.toNat by omega)]
          · rw [if_neg hbc] at h2
            by_cases hcb : c.toNat < b.toNat
            · rw [if_pos hcb] at h2; exact absurd h2 (by simp)
            · rw [if_pos (show a.toNat < c.toNat by omega)]
        · rw [if_neg hab] at h1
          by_cases hba : b.toNat < a.toNat
          · rw [if_pos hba] at h1; exact absurd h1 (by simp)
          · rw [if_neg hba] at h1
            by_cases hbc : b.toNat < c.toNat
            · rw [if_pos (show a.toNat < c.toNat by omega)]
            · rw [if_neg hbc] at h2
              by_cases hcb : c.toNat < b.toNat
              · rw [if_pos hcb] at h2; exact absurd h2 (by simp)
              · rw [if_neg hcb] at h2
                rw [if_neg (show ¬ a.toNat < c.toNat by omega),
                  if_neg (show ¬ c.toNat < a.toNat by omega)]
                exact ih bs' cs' h1 h2

instance : IsTotal (String × PyValue) (fun a b => pyStrLe a.1 b.1 = true) :=
  ⟨fun a b => charListLe_total a.1.toList b.1.toList⟩

instance : IsTrans (String × PyValue) (fun a b => pyStrLe a.1 b.1 = true) :=
  ⟨fun a b c => charListLe_trans a.1.toList b.1.toList c.1.toList⟩

/-- For an association list with distinct keys (a Python dict's items),
`lookup` finds exactly the listed pairs. -/
lemma lookup_iff_mem_of_nodupKeys (L : List (String × PyValue)) (n : String)
    (v : PyValue) (hnd : (L.map Prod.fst).Nodup) :
    L.lookup n = some v ↔ (n, v) ∈ L := by
  induction L with
  | nil => simp [List.lookup]
  | cons kv L' ih =>
    obtain ⟨k, w⟩ := kv
    simp only [List.map_cons, List.nodup_cons] at hnd
    by_cases hk : n = k
    · subst hk
      rw [List.lookup_cons, show (n == n) = true from beq_self_eq_true n]
      constructor
      · intro h
        simp only [Option.some.injEq] at h
        subst h
        exact List.mem_cons_self _ _
      · intro h
        rcases List.mem_cons.mp h with h | h
        · rw [Prod.mk.injEq] at h
          rw [h.2]
        · exact absurd (List.mem_map.mpr ⟨(n, v), h, rfl⟩) hnd.1
    · rw [List.lookup_cons, beq_false_of_ne hk]
      dsimp only
      rw [ih hnd.2]
      constructor
      · intro h; exact List.mem_cons_of_mem _ h
      · intro h
        rcases List.mem_cons.mp h with h | h
        · exact absurd (congrArg Prod.fst h) hk
        · exact h

lemma watchItems_map_fst (watch : List String) (L : List (String × PyValue)) :
    (watch.filterMap (fun name => (L.lookup name).map (fun v => (name, v)))).map
        Prod.fst
      = watch.filter (fun n => (L.lookup n).isSome) := by
  induction watch with
  | nil => rfl
  | cons n w' ih =>
    simp only [List.filterMap_cons, List.filter_cons]
    cases h : L.lookup n with
    | none => simpa [h] using ih
    | some v => simpa [h] using ih

lemma mem_watchItems (watch : List String) (L : List (String × PyValue))
    (n : String) (v : PyValue) :
    (n, v) ∈ watch.filterMap (fun name => (L.lookup name).map (fun w => (name, w)))
      ↔ n ∈ watch ∧ L.lookup n = some v := by
  simp only [List.mem_filterMap, Option.map_eq_some']
  constructor
  · rintro ⟨a, ha, w, hw, heq⟩
    cases heq
    exact ⟨ha, hw⟩
  · rintro ⟨hn, hv⟩
    exact ⟨n, hn, v, hv, rfl⟩

/-- **C5** (corrected).  The snapshot's watched list contains a name iff it
is in the Watch List, currently bound, *and not a leading-double-underscore
name* (the dunder filter is applied before the watch check, so a watched
`__name` is omitted too — this last condition is the correction); watched
entries follow Watch-List order (their name sequence is the Watch List
filtered to the bound names); the other-locals list holds exactly the
remaining bound non-dunder names not in the Watch List, in alphabetical
(code-point) order. -/
theorem gather_locals_partition (watch : List String)
    (fl : List (String × PyValue)) (hnd : (fl.map Prod.fst).Nodup) :
    ((gatherLocals watch fl).1.map Prod.fst
        = watch.filter (fun n =>
            ((fl.filter (fun kv => !startsWithDunder kv.1)).lookup n).isSome))
    ∧ (∀ (n : String) (v : PyValue), (n, v) ∈ (gatherLocals watch fl).1 ↔
        n ∈ watch ∧ (n, v) ∈ fl ∧ startsWithDunder n = false)
    ∧ (∀ (n : String) (v : PyValue), (n, v) ∈ (gatherLocals watch fl).2 ↔
        (n, v) ∈ fl ∧ startsWithDunder n = false ∧ n ∉ watch)
    ∧ List.Sorted (fun a b => pyStrLe a.1 b.1 = true) (gatherLocals watch fl).2 := by
  have hnd' : ((fl.filter (fun kv => !startsWithDunder kv.1)).map Prod.fst).Nodup :=
    List.Nodup.sublist (List.Sublist.map Prod.fst (List.filter_sublist fl)) hnd
  have hmemL : ∀ (n : String) (v : PyValue),
      (n, v) ∈ fl.filter (fun kv => !startsWithDunder kv.1)
        ↔ (n, v) ∈ fl ∧ startsWithDunder n = false := by
    intro n v
    rw [List.mem_filter]
    simp
  refine ⟨?_, ?_, ?_, ?_⟩
  · exact watchItems_map_fst watch _
  · intro n v
    rw [show (gatherLocals watch fl).1
        = watch.filterMap (fun name =>
            ((fl.filter (fun kv => !startsWithDunder kv.1)).lookup name).map
              (fun w => (name, w))) from rfl]
    rw [mem_watchItems, lookup_iff_mem_of_nodupKeys _ _ _ hnd', hmemL n v]
  · intro n v
    rw [show (gatherLocals watch fl).2
        = ((fl.filter (fun kv => !startsWithDunder kv.1)).insertionSort
            (fun a b => pyStrLe a.1 b.1 = true)).filter
            (fun kv => !watch.contains kv.1) from rfl]
    rw [List.mem_filter]
    rw [List.Perm.mem_iff (List.perm_insertionSort _ _)]
    rw [hmemL n v]
    simp [and_assoc]
  · have hs := List.sorted_insertionSort
      (fun (a b : String × PyValue) => pyStrLe a.1 b.1 = true)
      (fl.filter (fun kv => !startsWithDunder kv.1))
    exact List.Pairwise.sublist (List.filter_sublist _) hs

theorem gather_locals_partition_witness :
    ("b", (⟨some "2", some "2"⟩ : PyValue)) ∈
      (gatherLocals ["b"]
        [("a", ⟨some "1", some "1"⟩), ("b", ⟨some "2", some "2"⟩)]).1 :=
  ((gather_locals_partition ["b"]
      [("a", ⟨some "1", some "1"⟩), ("b", ⟨some "2", some "2"⟩)]
      (by decide)).2.1 "b" ⟨some "2", some "2"⟩).mpr (by decide)

/-- **C5** counterexample.  The name `__x` is in the Watch List and bound in
the frame's locals, so the claim requires it in the watched list; the code
filters leading-double-underscore names out of the locals view before the
watch check, so both output lists are empty. -/
theorem gather_locals_dunder_watch_cex :
    (gatherLocals ["__x"] [("__x", (⟨some "1", some "1"⟩ : PyValue))]) = ([], [])
    ∧ "__x" ∈ ["__x"]
    ∧ ("__x", (⟨some "1", some "1"⟩ : PyValue))
        ∈ [("__x", (⟨some "1", some "1"⟩ : PyValue))] := by
  decide

end LCViz
